import Mathlib

/-!
Verification development for the vertex-ai-search-usmc ingestion and retrieval
pipeline.

The write path is embedded from `load_and_store_vectors.py`: the element loop
(skip filter, neighbour context window, summarization call, document
construction) becomes `process` below, with the external Gemini summarization
service abstracted as a function `g : String → Except String String` (an
`Except.error` models a raised service exception).  The read path is embedded
from the result-normalization loop of `vector_search_app.py` (`normalize`
below), with the standard-library JSON parser abstracted as a function
`parse : String → Option Val` (`none` models `json.JSONDecodeError`).

Python strings are modelled as Lean `String` (a list of characters); the
Python string operations used by the source (`strip`, slicing, `startswith`)
are defined below over the character list so that every definition reduces in
the kernel.
-/

namespace VertexSearch

/-! ### Python string primitives -/

/-- The whitespace characters removed by Python's `str.strip()`. -/
def pyIsSpace (c : Char) : Bool :=
  c = ' ' || c = '\t' || c = '\n' || c = '\x0d' || c = '\x0b' || c = '\x0c'

/-- Python `str.strip()`: drop whitespace at both ends. -/
def pyStrip (s : String) : String :=
  ⟨((s.data.dropWhile pyIsSpace).reverse.dropWhile pyIsSpace).reverse⟩

/-- Python slicing `s[:n]`. -/
def pyTake (s : String) (n : Nat) : String :=
  ⟨s.data.take n⟩

/-- Character-list test underlying Python `str.startswith`. -/
def strStarts : List Char → List Char → Bool
  | [], _ => true
  | _ :: _, [] => false
  | a :: p, b :: s => a = b && strStarts p s

/-- Python `s.startswith(p)`. -/
def pyStarts (s p : String) : Bool :=
  strStarts p.data s.data

/-! ### Python values and dict operations

`Val` models the Python/JSON values that flow through the normalizer: strings,
integers, `None`/JSON `null`, and string-keyed mappings (dicts).  A dict is an
insertion-ordered association list with unique keys, as in Python. -/

inductive Val where
  | vstr : String → Val
  | vint : Int → Val
  | vnull : Val
  | vobj : List (String × Val) → Val

/-- Python `d.get(k)` / `k in d`: the value at the first matching key. -/
def dictGet (d : List (String × Val)) (k : String) : Option Val :=
  (d.find? (fun p => p.1 = k)).map (fun p => p.2)

/-- Python `d[k] = v`: overwrite in place if the key exists, else append. -/
def dictSet : List (String × Val) → String → Val → List (String × Val)
  | [], k, v => [(k, v)]
  | (k1, v1) :: rest, k, v =>
    if k1 = k then (k, v) :: rest else (k1, v1) :: dictSet rest k v

/-- Python `d.update(d2)`: set every key of `d2` in `d`, in order. -/
def dictUpdate (d : List (String × Val)) : List (String × Val) → List (String × Val)
  | [] => d
  | (k, v) :: rest => dictUpdate (dictSet d k v) rest

/-- Python truthiness for the values a `Val` can take. -/
def pyTruthy : Val → Bool
  | .vstr s => !s.data.isEmpty
  | .vint n => n ≠ 0
  | .vnull => false
  | .vobj d => !d.isEmpty

/-- Python `x is None`. -/
def Val.isNull : Val → Bool
  | .vnull => true
  | _ => false

/-! ### Write path: data model (`load_and_store_vectors.py`) -/

/-- One element of the pickled segmenter output.  `typeName` is
`type(el).__name__`; `text` is `none` when the element has no `text`
attribute; `pageNumber` is `none` when `el.metadata` has no page number (or it
is `None`) — both cases produce `None` in the uploaded metadata. -/
structure Element where
  typeName : String
  text : Option String
  pageNumber : Option Int
deriving DecidableEq

/-- The spec's closed content-unit kind, classified from the dynamic type
name as the spec's Segmenter Adapter prescribes. -/
inductive Kind where
  | Text : Kind
  | Table : Kind
  | Image : Kind
deriving DecidableEq

/-- Kind classification of a segmenter type name. -/
def kindOf (typeName : String) : Kind :=
  if typeName = "Image" then .Image
  else if typeName = "Table" then .Table
  else .Text

/-- The constant document identifier of the ingestion run (source line 75). -/
def SOURCE_NAME : String := "MCDP_1.pdf"

/-- The LangChain `Document` built at source lines 123-132: `page_content`
is the summary, and the metadata dict holds exactly the five fields below. -/
structure Doc where
  page_content : String
  source : String
  original_text : String
  sequence_id : Nat
  page_number : Option Int
  element_type : String
deriving DecidableEq

/-- The metadata dict of a `Doc`, exactly as the source constructs it:
five keys in the source's insertion order. -/
def Doc.metadataList (d : Doc) : List (String × Val) :=
  [("source", .vstr d.source),
   ("original_text", .vstr d.original_text),
   ("sequence_id", .vint d.sequence_id),
   ("page_number", match d.page_number with | some n => .vint n | none => .vnull),
   ("element_type", .vstr d.element_type)]

/-- The skip filter of source lines 88-93: an element is processed when it
has a `text` attribute whose stripped value is non-empty and its type is not
`Image`. -/
def shouldProcess (el : Element) : Bool :=
  match el.text with
  | none => false
  | some t => !(pyStrip t).data.isEmpty && el.typeName != "Image"

/-- Source lines 98-101: the previous element's text when `i > 0` and that
element has a `text` attribute, else the empty string. -/
def prev_text (elements : List Element) (i : Nat) : String :=
  if 0 < i then
    match elements[i-1]? with
    | some p => match p.text with | some t => t | none => ""
    | none => ""
  else ""

/-- Source lines 104-107: the next element's text when `i < len(elements)-1`
and that element has a `text` attribute, else the empty string. -/
def next_text (elements : List Element) (i : Nat) : String :=
  if i < elements.length - 1 then
    match elements[i+1]? with
    | some p => match p.text with | some t => t | none => ""
    | none => ""
  else ""

/-- Source line 110: previous, current and next text joined by blank lines.
At every call site the element's `text` attribute is present (the skip filter
has run), so `getD` only names the value already known to exist. -/
def combined_context (elements : List Element) (i : Nat) (el : Element) : String :=
  prev_text elements i ++ "\n\n" ++ el.text.getD "" ++ "\n\n" ++ next_text elements i

/-- The fixed instruction prefix of the summarization prompt (lines 113-117). -/
def promptInstruction : String :=
  "Summarize the central idea of the following text for search purposes. " ++
  "Preserve important military concepts and definitions.\n\n"

/-- The full prompt sent to the summarization service for element `i`. -/
def promptText (elements : List Element) (i : Nat) (el : Element) : String :=
  promptInstruction ++ combined_context elements i el

/-- The `Document` of source lines 123-132: summary as content plus the
five-field provenance metadata. -/
def mkDoc (i : Nat) (el : Element) (summary : String) : Doc :=
  { page_content := summary
    source := SOURCE_NAME
    original_text := pyTake (el.text.getD "") 300
    sequence_id := i
    page_number := el.pageNumber
    element_type := el.typeName }

/-- Python `enumerate` starting at `n`. -/
def enumFromN : Nat → List Element → List (Nat × Element)
  | _, [] => []
  | n, el :: rest => (n, el) :: enumFromN (n + 1) rest

/-- Python `enumerate(elements)`. -/
def pyEnumerate (elements : List Element) : List (Nat × Element) :=
  enumFromN 0 elements

/-- The body of the ingestion loop (source lines 77-135) over an enumerated
suffix: skip filtered elements, call the summarization service on the context
prompt, strip the response and build the document.  A service exception
(`Except.error`) propagates: the source has no try/except around the call. -/
def processIdx (g : String → Except String String) (elements : List Element) :
    List (Nat × Element) → Except String (List Doc)
  | [] => Except.ok []
  | (i, el) :: rest =>
    if shouldProcess el then
      match g (promptText elements i el) with
      | Except.error e => Except.error e
      | Except.ok response =>
        match processIdx g elements rest with
        | Except.error e => Except.error e
        | Except.ok docs => Except.ok (mkDoc i el (pyStrip response) :: docs)
    else processIdx g elements rest

/-- The whole ingestion run: enumerate the elements and run the loop,
collecting `documents_to_upload`. -/
def process (g : String → Except String String) (elements : List Element) :
    Except String (List Doc) :=
  processIdx g elements (pyEnumerate elements)

/-! ### Indexer: keyed upsert into the vector index

Modelled from the spec: the external vector index behind
`vector_store.add_documents` (source lines 146-148) is outside this
repository; the spec's Indexer contract states that the index supports keyed
streaming upsert with `(source_name, sequence_index)` as the idempotency key
and overwrite-on-rerun semantics.  The index is modelled as an
insertion-ordered association list from that key to the stored document. -/

/-- The spec's idempotency key of a stored record. -/
def docKey (d : Doc) : String × Nat :=
  (d.source, d.sequence_id)

/-- Modelled from the spec: keyed upsert — overwrite the existing entry for
the record's key if present, else append. -/
def upsertDoc : List ((String × Nat) × Doc) → Doc → List ((String × Nat) × Doc)
  | [], d => [(docKey d, d)]
  | (k, e) :: rest, d =>
    if k = docKey d then (docKey d, d) :: rest else (k, e) :: upsertDoc rest d

/-- Retrieve the record stored under a key. -/
def lookupKey (idx : List ((String × Nat) × Doc)) (k : String × Nat) : Option Doc :=
  (idx.find? (fun p => p.1 = k)).map (fun p => p.2)

/-- How many records the index holds for a key. -/
def countKey (idx : List ((String × Nat) × Doc)) (k : String × Nat) : Nat :=
  (idx.filter (fun p => p.1 = k)).length

/-! ### Read path: result normalization (`vector_search_app.py` lines 165-199)

A raw similarity-search result is one of three shapes: a typed document
object exposing `page_content`/`metadata` attributes, a plain dict, or
anything else.  Every shape carries its `str(result)` form, used by the
degradation fallbacks. -/

inductive RawResult where
  | document : Val → Val → String → RawResult
  | dict : List (String × Val) → String → RawResult
  | other : String → RawResult

/-- Python `str(result)`. -/
def RawResult.strForm : RawResult → String
  | .document _ _ s => s
  | .dict _ s => s
  | .other s => s

/-- `getattr(result, 'page_content', None)` (line 169): only the typed
document shape exposes the attribute. -/
def getattrContent : RawResult → Val
  | .document pc _ _ => pc
  | _ => .vnull

/-- `getattr(result, 'metadata', \x7b\x7d)` (line 170). -/
def getattrMetadata : RawResult → Val
  | .document _ md _ => md
  | _ => .vobj []

/-- Lines 172-184: when the content is a truthy string starting with the JSON
object delimiter, try to parse it; on success take its `page_content` (keeping
the original string when the key is absent) and merge its `metadata`
sub-mapping into the outer metadata via `dict.update`; on parse failure keep
the original content.  A `.get` on a non-dict parse or an `update` with a
non-dict argument raises (modelled as `Except.error`), to be caught by the
outer handler of lines 196-199. -/
def jsonStep (parse : String → Option Val) (content metadata : Val) :
    Except String (Val × Val) :=
  match content with
  | .vstr s =>
    if pyTruthy (.vstr s) && pyStarts s "\x7b\"" then
      match parse s with
      | some (.vobj fields) =>
        let c := (dictGet fields "page_content").getD (.vstr s)
        match dictGet fields "metadata" with
        | some mv =>
          match metadata, mv with
          | .vobj d, .vobj d2 => Except.ok (c, .vobj (dictUpdate d d2))
          | _, _ => Except.error "AttributeError"
        | none => Except.ok (c, metadata)
      | some _ => Except.error "AttributeError"
      | none => Except.ok (.vstr s, metadata)
    else Except.ok (content, metadata)
  | _ => Except.ok (content, metadata)

/-- Lines 187-189: when the content is still `None` and the raw result is a
plain dict, read `page_content` (defaulting to `str(result)`) and `metadata`
(defaulting to the empty dict) from it. -/
def dictStep (result : RawResult) (content metadata : Val) : Val × Val :=
  if content.isNull then
    match result with
    | .dict entries s =>
      ((dictGet entries "page_content").getD (.vstr s),
       (dictGet entries "metadata").getD (.vobj []))
    | _ => (content, metadata)
  else (content, metadata)

/-- Lines 191-194: when the content is still `None`, coerce the whole payload
to its string form with empty metadata. -/
def finalStep (result : RawResult) (content metadata : Val) : Val × Val :=
  if content.isNull then (.vstr result.strForm, .vobj []) else (content, metadata)

/-- The body of the `try` block of lines 167-194 for one raw result. -/
def normalizeCore (parse : String → Option Val) (result : RawResult) :
    Except String (Val × Val) :=
  match jsonStep parse (getattrContent result) (getattrMetadata result) with
  | Except.error e => Except.error e
  | Except.ok cm =>
    Except.ok (finalStep result (dictStep result cm.1 cm.2).1 (dictStep result cm.1 cm.2).2)

/-- One result's normalized `(content, metadata)` pair: the `try` body, with
the `except Exception` handler of lines 196-199 degrading any raised error to
`(str(result), \x7b\x7d)`. -/
def normalize (parse : String → Option Val) (result : RawResult) : Val × Val :=
  match normalizeCore parse result with
  | Except.ok r => r
  | Except.error _ => (.vstr result.strForm, .vobj [])

/-- The display loop of lines 165-221 normalizes every raw result; none is
ever dropped. -/
def normalizeResults (parse : String → Option Val) (results : List RawResult) :
    List (Val × Val) :=
  results.map (normalize parse)

/-! ### Lemmas about enumeration -/

theorem enumFromN_mem (l : List Element) : ∀ (n i : Nat) (el : Element),
    (i, el) ∈ enumFromN n l → n ≤ i ∧ l[i - n]? = some el := by
  induction l with
  | nil => intro n i el h; simp [enumFromN] at h
  | cons b bs ih =>
    intro n i el h
    simp only [enumFromN, List.mem_cons] at h
    rcases h with h | h
    · injection h with hi hel
      subst hi; subst hel
      exact ⟨Nat.le_refl _, by simp⟩
    · obtain ⟨hle, hget⟩ := ih (n + 1) i el h
      refine ⟨by omega, ?_⟩
      have hidx : i - n = (i - (n + 1)) + 1 := by omega
      rw [hidx]
      simpa using hget

theorem enumFromN_pairwise (l : List Element) : ∀ (n : Nat),
    (enumFromN n l).Pairwise (fun p q => p.1 < q.1) := by
  induction l with
  | nil => intro n; simp [enumFromN]
  | cons b bs ih =>
    intro n
    refine List.Pairwise.cons ?_ (ih (n + 1))
    intro q hq
    obtain ⟨i, el⟩ := q
    have := (enumFromN_mem bs (n + 1) i el hq).1
    simpa using by omega

/-! ### Lemmas about the ingestion loop -/

theorem processIdx_map_seq (g : String → Except String String)
    (elements : List Element) : ∀ (l : List (Nat × Element)) (docs : List Doc),
    processIdx g elements l = Except.ok docs →
    docs.map (fun d => d.sequence_id) =
      (l.filter (fun p => shouldProcess p.2)).map (fun p => p.1) := by
  intro l
  induction l with
  | nil =>
    intro docs h
    simp only [processIdx, Except.ok.injEq] at h
    subst h; simp
  | cons p rest ih =>
    obtain ⟨i, el⟩ := p
    intro docs h
    simp only [processIdx] at h
    by_cases hs : shouldProcess el
    · rw [if_pos hs] at h
      cases hg : g (promptText elements i el) with
      | error e => rw [hg] at h; exact absurd h (by simp)
      | ok response =>
        rw [hg] at h
        cases hrest : processIdx g elements rest with
        | error e => rw [hrest] at h; exact absurd h (by simp)
        | ok docs2 =>
          rw [hrest] at h
          simp only [Except.ok.injEq] at h
          subst h
          rw [List.filter_cons, if_pos hs]
          simp only [List.map_cons, mkDoc]
          exact congrArg (List.cons i) (ih docs2 hrest)
    · rw [if_neg hs] at h
      rw [List.filter_cons, if_neg hs]
      exact ih docs h

theorem processIdx_mem (g : String → Except String String)
    (elements : List Element) : ∀ (l : List (Nat × Element)) (docs : List Doc)
    (d : Doc), processIdx g elements l = Except.ok docs → d ∈ docs →
    ∃ i el s, (i, el) ∈ l ∧ shouldProcess el = true ∧
      g (promptText elements i el) = Except.ok s ∧ d = mkDoc i el (pyStrip s) := by
  intro l
  induction l with
  | nil =>
    intro docs d h hd
    simp only [processIdx, Except.ok.injEq] at h
    subst h; simp at hd
  | cons p rest ih =>
    obtain ⟨i, el⟩ := p
    intro docs d h hd
    simp only [processIdx] at h
    by_cases hs : shouldProcess el
    · rw [if_pos hs] at h
      cases hg : g (promptText elements i el) with
      | error e => rw [hg] at h; exact absurd h (by simp)
      | ok response =>
        rw [hg] at h
        cases hrest : processIdx g elements rest with
        | error e => rw [hrest] at h; exact absurd h (by simp)
        | ok docs2 =>
          rw [hrest] at h
          simp only [Except.ok.injEq] at h
          subst h
          rcases List.mem_cons.mp hd with hd | hd
          · exact ⟨i, el, response, List.mem_cons_self _ _, hs, hg, hd⟩
          · obtain ⟨j, el2, s2, hmem, hs2, hg2, heq⟩ := ih docs2 d hrest hd
            exact ⟨j, el2, s2, List.mem_cons_of_mem _ hmem, hs2, hg2, heq⟩
    · rw [if_neg hs] at h
      obtain ⟨j, el2, s2, hmem, hs2, hg2, heq⟩ := ih docs d h hd
      exact ⟨j, el2, s2, List.mem_cons_of_mem _ hmem, hs2, hg2, heq⟩

theorem processIdx_ok_iff (g : String → Except String String)
    (elements : List Element) : ∀ (l : List (Nat × Element)),
    (∃ docs, processIdx g elements l = Except.ok docs) ↔
    (∀ i el, (i, el) ∈ l → shouldProcess el = true →
      ∃ s, g (promptText elements i el) = Except.ok s) := by
  intro l
  induction l with
  | nil => simp [processIdx]
  | cons p rest ih =>
    obtain ⟨i, el⟩ := p
    by_cases hs : shouldProcess el
    · constructor
      · rintro ⟨docs, h⟩
        simp only [processIdx, if_pos hs] at h
        cases hg : g (promptText elements i el) with
        | error e => rw [hg] at h; exact absurd h (by simp)
        | ok response =>
          rw [hg] at h
          cases hrest : processIdx g elements rest with
          | error e => rw [hrest] at h; exact absurd h (by simp)
          | ok docs2 =>
            intro j el2 hmem hs2
            rcases List.mem_cons.mp hmem with hm | hm
            · injection hm with h1 h2
              subst h1; subst h2
              exact ⟨response, hg⟩
            · exact (ih.mp ⟨docs2, hrest⟩) j el2 hm hs2
      · intro hall
        obtain ⟨s, hg⟩ := hall i el (List.mem_cons_self _ _) hs
        obtain ⟨docs2, hrest⟩ := ih.mpr
          (fun j el2 hm hs2 => hall j el2 (List.mem_cons_of_mem _ hm) hs2)
        refine ⟨mkDoc i el (pyStrip s) :: docs2, ?_⟩
        simp only [processIdx, if_pos hs, hg, hrest]
    · constructor
      · rintro ⟨docs, h⟩
        simp only [processIdx, if_neg hs] at h
        intro j el2 hmem hs2
        rcases List.mem_cons.mp hmem with hm | hm
        · injection hm with h1 h2
          subst h1; subst h2
          exact absurd hs2 (by simpa using hs)
        · exact (ih.mp ⟨docs, h⟩) j el2 hm hs2
      · intro hall
        obtain ⟨docs, h⟩ := ih.mpr
          (fun j el2 hm hs2 => hall j el2 (List.mem_cons_of_mem _ hm) hs2)
        exact ⟨docs, by simp only [processIdx, if_neg hs]; exact h⟩

/-! ### Lemmas about dict operations -/

theorem dictGet_dictSet_self : ∀ (d : List (String × Val)) (k : String) (v : Val),
    dictGet (dictSet d k v) k = some v := by
  intro d
  induction d with
  | nil => intro k v; simp [dictSet, dictGet]
  | cons p rest ih =>
    intro k v
    obtain ⟨k1, v1⟩ := p
    by_cases h : k1 = k
    · subst h; simp [dictSet, dictGet]
    · simp only [dictSet, if_neg h, dictGet]
      rw [List.find?_cons_of_neg _ (by simp [h])]
      exact ih k v

theorem dictGet_dictSet_ne : ∀ (d : List (String × Val)) (k : String) (v : Val)
    (k2 : String), k2 ≠ k → dictGet (dictSet d k v) k2 = dictGet d k2 := by
  intro d
  induction d with
  | nil =>
    intro k v k2 h
    simp only [dictSet, dictGet]
    rw [List.find?_cons_of_neg _ (by simp [Ne.symm h])]
  | cons p rest ih =>
    intro k v k2 h
    obtain ⟨k1, v1⟩ := p
    by_cases h1 : k1 = k
    · subst h1
      have hset : dictSet ((k1, v1) :: rest) k1 v = (k1, v) :: rest := by
        simp [dictSet]
      rw [hset]
      simp only [dictGet]
      rw [List.find?_cons_of_neg _ (by simp [Ne.symm h]),
          List.find?_cons_of_neg _ (by simp [Ne.symm h])]
    · simp only [dictSet, if_neg h1, dictGet]
      by_cases h2 : k1 = k2
      · subst h2
        rw [List.find?_cons_of_pos _ (by simp), List.find?_cons_of_pos _ (by simp)]
      · rw [List.find?_cons_of_neg _ (by simp [h2]),
            List.find?_cons_of_neg _ (by simp [h2])]
        exact ih k v k2 h

theorem dictGet_dictUpdate_not_mem : ∀ (d2 d : List (String × Val)) (k : String),
    k ∉ d2.map Prod.fst → dictGet (dictUpdate d d2) k = dictGet d k := by
  intro d2
  induction d2 with
  | nil => intro d k _; rfl
  | cons p rest ih =>
    intro d k h
    obtain ⟨k1, v1⟩ := p
    simp only [List.map_cons, List.mem_cons] at h
    push_neg at h
    simp only [dictUpdate]
    rw [ih (dictSet d k1 v1) k h.2]
    exact dictGet_dictSet_ne d k1 v1 k h.1

theorem dictGet_dictUpdate_mem : ∀ (d2 d : List (String × Val)) (k : String)
    (v : Val), (d2.map Prod.fst).Nodup → dictGet d2 k = some v →
    dictGet (dictUpdate d d2) k = some v := by
  intro d2
  induction d2 with
  | nil => intro d k v _ h; simp [dictGet] at h
  | cons p rest ih =>
    intro d k v hnd hget
    obtain ⟨k1, v1⟩ := p
    simp only [List.map_cons, List.nodup_cons] at hnd
    by_cases hk : k1 = k
    · subst hk
      have hv : v1 = v := by
        simp only [dictGet] at hget
        rw [List.find?_cons_of_pos _ (by simp)] at hget
        simpa using hget
      subst hv
      simp only [dictUpdate]
      rw [dictGet_dictUpdate_not_mem rest (dictSet d k1 v1) k1 hnd.1]
      exact dictGet_dictSet_self d k1 v1
    · have hget2 : dictGet rest k = some v := by
        simp only [dictGet] at hget ⊢
        rw [List.find?_cons_of_neg _ (by simp [hk])] at hget
        exact hget
      simp only [dictUpdate]
      exact ih (dictSet d k1 v1) k v hnd.2 hget2

/-! ### Lemmas about the keyed upsert model -/

theorem lookupKey_upsertDoc_self : ∀ (idx : List ((String × Nat) × Doc)) (d : Doc),
    lookupKey (upsertDoc idx d) (docKey d) = some d := by
  intro idx
  induction idx with
  | nil => intro d; simp [upsertDoc, lookupKey]
  | cons p rest ih =>
    intro d
    obtain ⟨k, e⟩ := p
    by_cases h : k = docKey d
    · simp only [upsertDoc, if_pos h, lookupKey]
      rw [List.find?_cons_of_pos _ (by simp)]
      rfl
    · simp only [upsertDoc, if_neg h, lookupKey]
      rw [List.find?_cons_of_neg _ (by simp [h])]
      exact ih d

theorem countKey_upsertDoc_self : ∀ (idx : List ((String × Nat) × Doc)) (d : Doc),
    countKey (upsertDoc idx d) (docKey d) =
      if countKey idx (docKey d) = 0 then 1 else countKey idx (docKey d) := by
  intro idx
  induction idx with
  | nil => intro d; simp [upsertDoc, countKey]
  | cons p rest ih =>
    intro d
    obtain ⟨k, e⟩ := p
    by_cases h : k = docKey d
    · subst h
      have hup : upsertDoc ((docKey d, e) :: rest) d = (docKey d, d) :: rest := by
        simp [upsertDoc]
      simp only [countKey]
      rw [hup]
      rw [List.filter_cons_of_pos (by simp), List.filter_cons_of_pos (by simp)]
      simp only [List.length_cons]
      rw [if_neg (by omega)]
    · simp only [upsertDoc, if_neg h, countKey]
      rw [List.filter_cons_of_neg (by simp [h]), List.filter_cons_of_neg (by simp [h])]
      exact ih d

/-! ### Lemmas about the normalizer -/

theorem finalStep_fst_not_null (result : RawResult) (c m : Val) :
    ((finalStep result c m).1).isNull = false := by
  by_cases h : c.isNull
  · simp only [finalStep, if_pos h]
    rfl
  · simp only [finalStep, if_neg h]
    simpa using h

theorem normalize_fst_not_null (parse : String → Option Val) (result : RawResult) :
    ((normalize parse result).1).isNull = false := by
  unfold normalize
  cases h : normalizeCore parse result with
  | error e => rfl
  | ok r =>
    unfold normalizeCore at h
    cases hj : jsonStep parse (getattrContent result) (getattrMetadata result) with
    | error e => rw [hj] at h; exact absurd h (by simp)
    | ok cm =>
      rw [hj] at h
      simp only [Except.ok.injEq] at h
      subst h
      exact finalStep_fst_not_null result _ _

/-! ### Concrete inputs used by witnesses and counterexamples -/

/-- A summarization service that always answers (with padding to exercise
the whitespace strip). -/
def gW : String → Except String String := fun _ => Except.ok " s "

/-- Three elements of which the middle one (an image) is skipped. -/
def elsW : List Element :=
  [⟨"NarrativeText", some "a", none⟩, ⟨"Image", some "b", some 2⟩,
   ⟨"Text", some "c", none⟩]

/-- The documents `process gW elsW` produces. -/
def docW0 : Doc := ⟨"s", "MCDP_1.pdf", "a", 0, none, "NarrativeText"⟩

/-- Second produced document: sequence id 2, the gap at 1 preserved. -/
def docW2 : Doc := ⟨"s", "MCDP_1.pdf", "c", 2, none, "Text"⟩

/-- The full expected output of `process gW elsW`. -/
def docsW : List Doc := [docW0, docW2]

/-- Two enrichment records sharing the idempotency key `("MCDP_1.pdf", 7)`
but holding different representative texts. -/
def dRec1 : Doc := ⟨"first summary", "MCDP_1.pdf", "orig", 7, some 3, "Text"⟩

/-- The later record for the same key. -/
def dRec2 : Doc := ⟨"second summary", "MCDP_1.pdf", "orig", 7, some 3, "Text"⟩

/-- Two text units, for the partial-failure run. -/
def elsC2 : List Element := [⟨"Text", some "u1", none⟩, ⟨"Text", some "u2", none⟩]

/-- A summarization service that raises on the first unit's prompt and
answers every other prompt. -/
def gFail1 : String → Except String String := fun p =>
  if p = promptText elsC2 0 ⟨"Text", some "u1", none⟩ then Except.error "service error"
  else Except.ok "ok summary"

/-! ### C1 -/

/-- C1: for every pair of upserts of records carrying the same
`(source_name, sequence_index)` key, the index afterwards holds exactly one
retrievable record for that key, and it is the later record (so its
`representative_text` — the document's `page_content` — is the later one);
the first upsert may itself land on an index left over from a partial run
(any `idx` with at most one record for the key), so re-running ingestion for
a subset of units overwrites rather than duplicates. -/
theorem c1_idempotent_upsert (idx : List ((String × Nat) × Doc)) (d1 d2 : Doc)
    (hk : docKey d1 = docKey d2) (hc : countKey idx (docKey d2) ≤ 1) :
    lookupKey (upsertDoc (upsertDoc idx d1) d2) (docKey d2) = some d2 ∧
    countKey (upsertDoc (upsertDoc idx d1) d2) (docKey d2) = 1 := by
  refine ⟨lookupKey_upsertDoc_self _ d2, ?_⟩
  have h1 := countKey_upsertDoc_self idx d1
  have h2 := countKey_upsertDoc_self (upsertDoc idx d1) d2
  rw [hk] at h1
  rw [h2, h1]
  split_ifs <;> omega

/-- C1 witness: upserting `dRec1` then `dRec2` (same key, different
representative text) into the empty index leaves exactly one record for the
key, holding the later text. -/
theorem c1_witness :
    lookupKey (upsertDoc (upsertDoc [] dRec1) dRec2) (docKey dRec2) = some dRec2 ∧
    countKey (upsertDoc (upsertDoc [] dRec1) dRec2) (docKey dRec2) = 1 :=
  c1_idempotent_upsert [] dRec1 dRec2 rfl (by decide)

/-! ### C2 -/

/-- C2 counterexample: a batch of N = 2 text units of which M = 1 fails
enrichment does not yield a partial-completion report with
`succeeded = 1, failed = 1` — the run raises: the service exception
propagates out of the loop and the remaining unit is never enriched.  There
is no `UpsertReport` anywhere in the code. -/
theorem c2_counterexample : process gFail1 elsC2 = Except.error "service error" := rfl

/-- C2 amended: the ingestion run has all-or-nothing semantics — it
completes precisely when the summarization call of every processed unit
succeeds; a single unit's enrichment failure propagates as an exception and
aborts the whole run, with no per-unit error record produced. -/
theorem c2_failure_aborts_run (g : String → Except String String)
    (elements : List Element) :
    (∃ docs, process g elements = Except.ok docs) ↔
    (∀ i el, (i, el) ∈ pyEnumerate elements → shouldProcess el = true →
      ∃ s, g (promptText elements i el) = Except.ok s) :=
  processIdx_ok_iff g elements (pyEnumerate elements)

/-- C2 witness: with a service that always answers, the run over the
two-unit batch completes. -/
theorem c2_witness : ∃ docs, process (fun _ => Except.ok "ok") elsC2 = Except.ok docs :=
  (c2_failure_aborts_run (fun _ => Except.ok "ok") elsC2).mpr
    (fun _ _ _ _ => ⟨"ok", rfl⟩)

/-! ### C7 -/

/-- C7: the sequence ids of the uploaded documents are exactly the
zero-based positions, in the original unfiltered element order, of the
elements that pass the skip filter; in particular they are strictly
increasing and the gaps of skipped elements are preserved. -/
theorem c7_sequence_ids (g : String → Except String String)
    (elements : List Element) (docs : List Doc)
    (h : process g elements = Except.ok docs) :
    docs.map (fun d => d.sequence_id) =
      ((pyEnumerate elements).filter (fun p => shouldProcess p.2)).map (fun p => p.1) ∧
    (docs.map (fun d => d.sequence_id)).Pairwise (· < ·) := by
  have hm := processIdx_map_seq g elements (pyEnumerate elements) docs h
  refine ⟨hm, ?_⟩
  rw [hm]
  have hp : (pyEnumerate elements).Pairwise (fun p q => p.1 < q.1) :=
    enumFromN_pairwise elements 0
  refine List.Pairwise.map (fun p => p.1) (fun a b hab => ?_)
    (hp.filter (fun p => shouldProcess p.2))
  exact hab

/-- C7 witness: on the three-element run with the image at position 1
skipped, the uploaded sequence ids are `[0, 2]`: positions in the original
order, strictly increasing, gap preserved. -/
theorem c7_witness :
    docsW.map (fun d => d.sequence_id) =
      ((pyEnumerate elsW).filter (fun p => shouldProcess p.2)).map (fun p => p.1) ∧
    (docsW.map (fun d => d.sequence_id)).Pairwise (· < ·) :=
  c7_sequence_ids gW elsW docsW rfl

/-! ### C6 -/

/-- C6: for an element at an interior index the context portion of the
summarization prompt is the preceding unit's text (its text when it has a
`text` attribute, else empty), a blank line, the center text, a blank line,
and the symmetric lookup at `i+1`; the first index always gets an empty
preceding text and the last index an empty following text.  (The full prompt
`promptText` prefixes the fixed summarization instruction to this context.) -/
theorem c6_context_window (elements : List Element) (i : Nat) (el : Element)
    (hel : elements[i]? = some el) :
    (0 < i → i < elements.length - 1 →
      combined_context elements i el =
        ((elements[i-1]?).elim "" (fun p => p.text.getD "")) ++ "\n\n" ++
        el.text.getD "" ++ "\n\n" ++
        ((elements[i+1]?).elim "" (fun p => p.text.getD ""))) ∧
    (i = 0 → prev_text elements i = "") ∧
    (i = elements.length - 1 → next_text elements i = "") := by
  refine ⟨?_, ?_, ?_⟩
  · intro h1 h2
    have hp : prev_text elements i =
        (elements[i-1]?).elim "" (fun p => p.text.getD "") := by
      unfold prev_text
      rw [if_pos h1]
      cases elements[i-1]? with
      | none => rfl
      | some p => cases hp : p.text <;> simp [hp]
    have hn : next_text elements i =
        (elements[i+1]?).elim "" (fun p => p.text.getD "") := by
      unfold next_text
      rw [if_pos h2]
      cases elements[i+1]? with
      | none => rfl
      | some p => cases hp : p.text <;> simp [hp]
    rw [combined_context, hp, hn]
  · intro h
    subst h
    rfl
  · intro h
    unfold next_text
    rw [if_neg (by omega)]

/-- C6 witness: on a three-text-unit document, the middle unit's context is
the neighbours joined by blank lines, the first unit's preceding text is
empty and the last unit's following text is empty. -/
theorem c6_witness :
    combined_context [⟨"Text", some "a", none⟩, ⟨"Text", some "b", none⟩,
        ⟨"Text", some "c", none⟩] 1 ⟨"Text", some "b", none⟩ = "a\n\nb\n\nc" ∧
    prev_text [⟨"Text", some "a", none⟩, ⟨"Text", some "b", none⟩,
        ⟨"Text", some "c", none⟩] 0 = "" ∧
    next_text [⟨"Text", some "a", none⟩, ⟨"Text", some "b", none⟩,
        ⟨"Text", some "c", none⟩] 2 = "" :=
  ⟨((c6_context_window _ 1 ⟨"Text", some "b", none⟩ rfl).1 (by decide)
      (by decide)).trans rfl,
   (c6_context_window [⟨"Text", some "a", none⟩, ⟨"Text", some "b", none⟩,
      ⟨"Text", some "c", none⟩] 0 ⟨"Text", some "a", none⟩ rfl).2.1 rfl,
   (c6_context_window [⟨"Text", some "a", none⟩, ⟨"Text", some "b", none⟩,
      ⟨"Text", some "c", none⟩] 2 ⟨"Text", some "c", none⟩ rfl).2.2 rfl⟩

/-! ### C8 -/

/-- C8 counterexample: a table element with non-empty text is enriched — the
run over a single `Table` element performs a summarization call and uploads
a document whose element kind is `Table`, not `Text`, refuting that
enrichment happens only for Text-kind elements. -/
theorem c8_counterexample :
    process (fun _ => Except.ok "table summary") [⟨"Table", some "1 2 3", some 4⟩] =
      Except.ok [⟨"table summary", "MCDP_1.pdf", "1 2 3", 0, some 4, "Table"⟩] ∧
    kindOf "Table" = Kind.Table ∧ Kind.Table ≠ Kind.Text :=
  ⟨rfl, rfl, by decide⟩

/-- C8 amended: an enrichment call (and hence a context window) is
constructed only for elements that carry a `text` attribute whose value is
non-empty and not whitespace-only and whose kind is not Image — every
uploaded document originates from such an element; Table-kind elements are
not excluded, only Image-kind ones are. -/
theorem c8_window_filter (g : String → Except String String)
    (elements : List Element) (docs : List Doc)
    (h : process g elements = Except.ok docs) :
    ∀ d ∈ docs, ∃ i el,
      elements[i]? = some el ∧ el.text.isSome = true ∧
      pyStrip (el.text.getD "") ≠ "" ∧ kindOf el.typeName ≠ Kind.Image ∧
      d.element_type = el.typeName ∧ d.sequence_id = i := by
  intro d hd
  obtain ⟨i, el, s, hmem, hs, hg, rfl⟩ :=
    processIdx_mem g elements (pyEnumerate elements) docs d h hd
  have hidx : elements[i]? = some el := by
    simpa using (enumFromN_mem elements 0 i el hmem).2
  refine ⟨i, el, hidx, ?_, ?_, ?_, rfl, rfl⟩
  · unfold shouldProcess at hs
    cases htx : el.text with
    | none => rw [htx] at hs; exact absurd hs (by simp)
    | some t => rfl
  · unfold shouldProcess at hs
    cases htx : el.text with
    | none => rw [htx] at hs; exact absurd hs (by simp)
    | some t =>
      rw [htx] at hs
      have h1 : (pyStrip t).data.isEmpty = false := by
        rcases Bool.and_eq_true_iff.mp hs with ⟨ha, _⟩
        simpa using ha
      intro hc
      simp only [Option.getD_some] at hc
      rw [hc] at h1
      simp at h1
  · unfold shouldProcess at hs
    cases htx : el.text with
    | none => rw [htx] at hs; exact absurd hs (by simp)
    | some t =>
      rw [htx] at hs
      rcases Bool.and_eq_true_iff.mp hs with ⟨_, hb⟩
      have hne : el.typeName ≠ "Image" := by simpa using hb
      unfold kindOf
      rw [if_neg hne]
      by_cases ht : el.typeName = "Table"
      · rw [if_pos ht]; exact fun hcon => Kind.noConfusion hcon
      · rw [if_neg ht]; exact fun hcon => Kind.noConfusion hcon

/-- C8 amended witness: the table-element run satisfies the amended filter
characterization. -/
theorem c8_witness :
    ∃ i el,
      ([⟨"Table", some "1 2 3", some 4⟩] : List Element)[i]? = some el ∧
      el.text.isSome = true ∧ pyStrip (el.text.getD "") ≠ "" ∧
      kindOf el.typeName ≠ Kind.Image ∧
      (⟨"table summary", "MCDP_1.pdf", "1 2 3", 0, some 4, "Table"⟩ : Doc).element_type =
        el.typeName ∧
      (⟨"table summary", "MCDP_1.pdf", "1 2 3", 0, some 4, "Table"⟩ : Doc).sequence_id = i :=
  c8_window_filter (fun _ => Except.ok "table summary") [⟨"Table", some "1 2 3", some 4⟩]
    [⟨"table summary", "MCDP_1.pdf", "1 2 3", 0, some 4, "Table"⟩] rfl
    ⟨"table summary", "MCDP_1.pdf", "1 2 3", 0, some 4, "Table"⟩
    (List.mem_cons_self _ _)

/-! ### C10 -/

/-- C10: every uploaded document's metadata dict has exactly the five keys
`source`, `original_text`, `sequence_id`, `page_number`, `element_type` in
that order; `source` is the constant run identifier; `original_text` is at
most 300 characters; and the document is tied to an originating element at
its sequence position whose page number it copies — so the `page_number` key
is present and null exactly when that element has no page number. -/
theorem c10_metadata_fields (g : String → Except String String)
    (elements : List Element) (docs : List Doc)
    (h : process g elements = Except.ok docs) :
    ∀ d ∈ docs,
      d.metadataList.map Prod.fst =
        ["source", "original_text", "sequence_id", "page_number", "element_type"] ∧
      d.source = SOURCE_NAME ∧
      d.original_text.length ≤ 300 ∧
      ∃ el, elements[d.sequence_id]? = some el ∧ d.page_number = el.pageNumber ∧
        (el.pageNumber = none →
          dictGet d.metadataList "page_number" = some Val.vnull) := by
  intro d hd
  obtain ⟨i, el, s, hmem, hs, hg, rfl⟩ :=
    processIdx_mem g elements (pyEnumerate elements) docs d h hd
  have hidx : elements[i]? = some el := by
    simpa using (enumFromN_mem elements 0 i el hmem).2
  refine ⟨rfl, rfl, ?_, el, hidx, rfl, ?_⟩
  · show (pyTake (el.text.getD "") 300).length ≤ 300
    simp only [pyTake, String.length, List.length_take]
    omega
  · intro hn
    simp [Doc.metadataList, dictGet, mkDoc, hn]

/-- C10 witness: the first document of the three-element run has the five
metadata keys, the constant source, a short original text, and a null page
number copied from its pageless originating element. -/
theorem c10_witness :
    docW0.metadataList.map Prod.fst =
      ["source", "original_text", "sequence_id", "page_number", "element_type"] ∧
    docW0.source = SOURCE_NAME ∧
    docW0.original_text.length ≤ 300 ∧
    ∃ el, elsW[docW0.sequence_id]? = some el ∧ docW0.page_number = el.pageNumber ∧
      (el.pageNumber = none →
        dictGet docW0.metadataList "page_number" = some Val.vnull) :=
  c10_metadata_fields gW elsW docsW rfl docW0 (List.mem_cons_self _ _)

/-! ### Read-path claim lemmas -/

theorem pyStarts_isEmpty_false (s : String) (h : pyStarts s "\x7b\"" = true) :
    s.data.isEmpty = false := by
  unfold pyStarts at h
  cases hd : s.data with
  | nil => rw [hd] at h; exact absurd h (by decide)
  | cons c rest => rfl

theorem jsonStep_parse_none (parse : String → Option Val) (s : String) (md : Val)
    (hpre : pyStarts s "\x7b\"" = true) (hfail : parse s = none) :
    jsonStep parse (.vstr s) md = Except.ok (.vstr s, md) := by
  have htr : pyTruthy (.vstr s) = true := by
    simp [pyTruthy, pyStarts_isEmpty_false s hpre]
  simp [jsonStep, htr, hpre, hfail]

theorem jsonStep_obj_with_md (parse : String → Option Val) (s : String)
    (m fields m2 : List (String × Val)) (hpre : pyStarts s "\x7b\"" = true)
    (hparse : parse s = some (.vobj fields))
    (hmd : dictGet fields "metadata" = some (.vobj m2)) :
    jsonStep parse (.vstr s) (.vobj m) =
      Except.ok ((dictGet fields "page_content").getD (.vstr s),
        .vobj (dictUpdate m m2)) := by
  have htr : pyTruthy (.vstr s) = true := by
    simp [pyTruthy, pyStarts_isEmpty_false s hpre]
  simp [jsonStep, htr, hpre, hparse, hmd]

/-! ### C3 -/

/-- C3: a document-shaped result whose content is a string starting with the
JSON object delimiter that fails to parse is returned with the original
unparsed string as content (the outer metadata untouched), and the
normalization body completes without raising. -/
theorem c3_malformed_json (parse : String → Option Val) (s : String) (md : Val)
    (sf : String) (hpre : pyStarts s "\x7b\"" = true) (hfail : parse s = none) :
    normalizeCore parse (.document (.vstr s) md sf) = Except.ok (.vstr s, md) ∧
    normalize parse (.document (.vstr s) md sf) = (.vstr s, md) := by
  have hj := jsonStep_parse_none parse s md hpre hfail
  have hcore : normalizeCore parse (.document (.vstr s) md sf) =
      Except.ok (.vstr s, md) := by
    unfold normalizeCore
    simp only [getattrContent, getattrMetadata]
    rw [hj]
    simp [dictStep, finalStep, Val.isNull]
  exact ⟨hcore, by unfold normalize; rw [hcore]⟩

/-- C3 witness: the spec's malformed payload, with a parser that rejects
it, comes back verbatim with its metadata intact. -/
theorem c3_witness :
    normalizeCore (fun _ => none)
        (.document (.vstr "\x7b\"page_content\": X") (.vobj [("k", .vint 1)]) "SF") =
      Except.ok (.vstr "\x7b\"page_content\": X", .vobj [("k", .vint 1)]) ∧
    normalize (fun _ => none)
        (.document (.vstr "\x7b\"page_content\": X") (.vobj [("k", .vint 1)]) "SF") =
      (.vstr "\x7b\"page_content\": X", .vobj [("k", .vint 1)]) :=
  c3_malformed_json (fun _ => none) "\x7b\"page_content\": X" (.vobj [("k", .vint 1)])
    "SF" (by decide) rfl

/-! ### C4 -/

/-- C4: a document-shaped result whose content string parses as a JSON
mapping is returned with the mapping's `page_content` value as content, and
the mapping's `metadata` sub-mapping is merged into the outer metadata with
the JSON-embedded keys overriding the outer ones on conflict. -/
theorem c4_json_content_extracted (parse : String → Option Val) (s : String)
    (m fields m2 : List (String × Val)) (v : Val) (sf : String)
    (hpre : pyStarts s "\x7b\"" = true)
    (hparse : parse s = some (.vobj fields))
    (hpc : dictGet fields "page_content" = some v)
    (hv : v.isNull = false)
    (hmd : dictGet fields "metadata" = some (.vobj m2))
    (hnd : (m2.map Prod.fst).Nodup) :
    normalize parse (.document (.vstr s) (.vobj m) sf) =
      (v, .vobj (dictUpdate m m2)) ∧
    ∀ k w, dictGet m2 k = some w → dictGet (dictUpdate m m2) k = some w := by
  have hj := jsonStep_obj_with_md parse s m fields m2 hpre hparse hmd
  rw [hpc] at hj
  simp only [Option.getD_some] at hj
  refine ⟨?_, fun k w hw => dictGet_dictUpdate_mem m2 m k w hnd hw⟩
  unfold normalize normalizeCore
  simp only [getattrContent, getattrMetadata]
  rw [hj]
  simp [dictStep, finalStep, hv]

/-- C4 witness: the spec's example payload yields content `"X"` and the
embedded `source` value overriding the outer one. -/
theorem c4_witness :
    normalize
        (fun s =>
          if s = "\x7b\"page_content\": \"X\", \"metadata\": \x7b\"source\": \"doc\"\x7d\x7d" then
            some (.vobj [("page_content", .vstr "X"),
              ("metadata", .vobj [("source", .vstr "doc")])])
          else none)
        (.document
          (.vstr "\x7b\"page_content\": \"X\", \"metadata\": \x7b\"source\": \"doc\"\x7d\x7d")
          (.vobj [("k", .vint 1), ("source", .vstr "outer")]) "SF") =
      (.vstr "X", .vobj [("k", .vint 1), ("source", .vstr "doc")]) :=
  ((c4_json_content_extracted
      (fun s =>
        if s = "\x7b\"page_content\": \"X\", \"metadata\": \x7b\"source\": \"doc\"\x7d\x7d" then
          some (.vobj [("page_content", .vstr "X"),
            ("metadata", .vobj [("source", .vstr "doc")])])
        else none)
      "\x7b\"page_content\": \"X\", \"metadata\": \x7b\"source\": \"doc\"\x7d\x7d"
      [("k", .vint 1), ("source", .vstr "outer")]
      [("page_content", .vstr "X"), ("metadata", .vobj [("source", .vstr "doc")])]
      [("source", .vstr "doc")] (.vstr "X") "SF"
      (by decide) rfl rfl rfl rfl (by decide)).1).trans rfl

/-! ### C9 -/

/-- C9: a content string that parses as a JSON mapping without a
`page_content` key keeps the original JSON string as the returned content
(it does not become null or empty), while a present `metadata` sub-mapping
is still merged into the outer metadata. -/
theorem c9_missing_page_content (parse : String → Option Val) (s : String)
    (m fields m2 : List (String × Val)) (sf : String)
    (hpre : pyStarts s "\x7b\"" = true)
    (hparse : parse s = some (.vobj fields))
    (hpc : dictGet fields "page_content" = none)
    (hmd : dictGet fields "metadata" = some (.vobj m2)) :
    normalize parse (.document (.vstr s) (.vobj m) sf) =
      (.vstr s, .vobj (dictUpdate m m2)) := by
  have hj := jsonStep_obj_with_md parse s m fields m2 hpre hparse hmd
  rw [hpc] at hj
  simp only [Option.getD_none] at hj
  unfold normalize normalizeCore
  simp only [getattrContent, getattrMetadata]
  rw [hj]
  simp [dictStep, finalStep, Val.isNull]

/-- C9 witness: a payload whose JSON object holds only a `metadata`
sub-mapping keeps the whole original string as content while the sub-mapping
is merged. -/
theorem c9_witness :
    normalize
        (fun s =>
          if s = "\x7b\"metadata\": \x7b\"source\": \"doc\"\x7d\x7d" then
            some (.vobj [("metadata", .vobj [("source", .vstr "doc")])])
          else none)
        (.document (.vstr "\x7b\"metadata\": \x7b\"source\": \"doc\"\x7d\x7d")
          (.vobj []) "SF") =
      (.vstr "\x7b\"metadata\": \x7b\"source\": \"doc\"\x7d\x7d",
       .vobj [("source", .vstr "doc")]) :=
  (c9_missing_page_content
      (fun s =>
        if s = "\x7b\"metadata\": \x7b\"source\": \"doc\"\x7d\x7d" then
          some (.vobj [("metadata", .vobj [("source", .vstr "doc")])])
        else none)
      "\x7b\"metadata\": \x7b\"source\": \"doc\"\x7d\x7d" []
      [("metadata", .vobj [("source", .vstr "doc")])] [("source", .vstr "doc")]
      "SF" (by decide) rfl rfl rfl).trans rfl

/-! ### C5 -/

/-- C5 counterexample: a raw result from which no textual payload can be
resolved is not dropped from the returned results — the normalizer returns
it with content equal to the payload's string form and empty metadata. -/
theorem c5_counterexample :
    normalizeResults (fun _ => none) [RawResult.other "x"] =
      [(.vstr "x", .vobj [])] := rfl

/-- C5 amended: the normalized content is never null, but an unresolvable
payload degrades to the string form of the whole payload with empty metadata
and is returned, not dropped: the normalizer emits exactly one record per
raw result. -/
theorem c5_content_never_null (parse : String → Option Val) :
    (∀ result, ((normalize parse result).1).isNull = false) ∧
    (∀ s, normalize parse (.other s) = (.vstr s, .vobj [])) ∧
    (∀ results, (normalizeResults parse results).length = results.length) := by
  refine ⟨normalize_fst_not_null parse, fun s => rfl, fun results => ?_⟩
  simp [normalizeResults]

end VertexSearch
